import Mathlib

/-!
Verification of `stats/book-lists/batch_compatibility_analyzer.py`.

The Python program computes pairwise "reading compatibility" scores between
people from their book logs.  This file gives a shallow embedding of its
core: title/author normalisation, the per-person category sets, the six
score components, the qualitative diagnosis text, and the result sorting.
Python floats are modelled as exact rationals (ℚ) wherever the arithmetic
of the program is rational, and as reals (ℝ) where `np.sqrt` enters.
-/

namespace BookBonds

/-! ### Normalizer: `normalize_title` and `get_primary_author` -/

/-- Python `\w` (word character), restricted to the basic-latin model used
throughout this embedding: alphanumeric or underscore.  Note `\w` keeps the
underscore. -/
def pyIsWordChar (c : Char) : Bool := c.isAlphanum || c == '_'

/-- A character survives the regex deletion on line 25 (which removes
everything that is neither a word character nor whitespace) iff it is a
word character or whitespace. -/
def keepChar (c : Char) : Bool := pyIsWordChar c || c.isWhitespace

/-- Accumulator pass of Python `str.split()` (split on whitespace runs,
dropping empty fields).  `acc` holds the current word, reversed. -/
def pyWordsAux : List Char → List Char → List (List Char)
  | [], acc => if acc.isEmpty then [] else [acc.reverse]
  | c :: cs, acc =>
    if c.isWhitespace then
      if acc.isEmpty then pyWordsAux cs [] else acc.reverse :: pyWordsAux cs []
    else
      pyWordsAux cs (c :: acc)

/-- Python `s.split()` on a character list. -/
def pyWords (l : List Char) : List (List Char) := pyWordsAux l []

/-- Python string join with a single-space separator, on character
lists. -/
def joinWords : List (List Char) → List Char
  | [] => []
  | [w] => w
  | w :: ws => w ++ ' ' :: joinWords ws

/-- Model of `normalize_title` (line 21): on a missing title returns the
empty string; otherwise
lower-cases, strips every character that is not `\w` or whitespace, and
rejoins the whitespace-split words with single spaces. -/
def normalize_title : Option String → String
  | none => ""
  | some s => ⟨joinWords (pyWords (((s.data.map Char.toLower).filter keepChar)))⟩

/-- Python `str.strip()`: drop leading and trailing whitespace. -/
def pyStrip (l : List Char) : List Char :=
  ((l.dropWhile Char.isWhitespace).reverse.dropWhile Char.isWhitespace).reverse

/-- Model of `get_primary_author` (line 28): on a missing author returns
the empty string;
otherwise takes the segment before the first `+`, strips it, lower-cases
it. -/
def get_primary_author : Option String → String
  | none => ""
  | some s => ⟨(pyStrip (s.data.takeWhile (fun c => !(c == '+')))).map Char.toLower⟩

/-! ### Data model and Categorizer -/

/-- One row of the reading log of a person (`Title`, `Author`, `Status`).
Missing cells are `none`. -/
structure BookRecord where
  title : Option String
  author : Option String
  status : String
deriving DecidableEq

/-- Statuses counted as "finished" (line 51: `finished` and
`currently_reading`). -/
def isFinishedStatus (s : String) : Bool := s == "finished" || s == "currently_reading"

/-- The per-person category sets built in `calculate_compatibility`
(lines 39-72): `books1` (four title sets) and `authors1` (two author sets,
with the empty string removed). -/
structure Catalog where
  finished : Finset String
  want_to_read : Finset String
  did_not_finish : Finset String
  all : Finset String
  finishedAuthors : Finset String
  allAuthors : Finset String
deriving DecidableEq

/-- Builds the category sets from a record list, mirroring lines 39-72:
deleted rows are dropped first; titles are normalised; author sets drop
the empty string. -/
def buildCatalog (rs : List BookRecord) : Catalog :=
  let df := rs.filter (fun r => !(r.status == "deleted"))
  { finished := ((df.filter (fun r => isFinishedStatus r.status)).map
      (fun r => normalize_title r.title)).toFinset
    want_to_read := ((df.filter (fun r => r.status == "want_to_read")).map
      (fun r => normalize_title r.title)).toFinset
    did_not_finish := ((df.filter (fun r => r.status == "did_not_finish")).map
      (fun r => normalize_title r.title)).toFinset
    all := (df.map (fun r => normalize_title r.title)).toFinset
    finishedAuthors := (((df.filter (fun r => isFinishedStatus r.status)).map
      (fun r => get_primary_author r.author)).toFinset).erase ""
    allAuthors := ((df.map (fun r => get_primary_author r.author)).toFinset).erase "" }

/-! ### ScoreEngine: the six score components (lines 86-129) -/

/-- The disagreement count of line 126: books one person finished that the
other abandoned, summed over both directions. -/
def disagreements (b1 b2 : Catalog) : ℕ :=
  (b1.finished ∩ b2.did_not_finish).card + (b2.finished ∩ b1.did_not_finish).card

/-- The shared_finished component of the scores map (lines 89-94). -/
def shared_finished_score (b1 b2 : Catalog) : ℚ :=
  if 0 < b1.finished.card + b2.finished.card then
    min 1 (if 0 < min b1.finished.card b2.finished.card then
        ((b1.finished ∩ b2.finished).card : ℚ) / (min b1.finished.card b2.finished.card : ℚ)
      else 0) * 0.35
  else 0

/-- The author Jaccard index of line 98 (division by zero yields 0 in ℚ,
matching the guard in the code). -/
def author_jaccard (b1 b2 : Catalog) : ℚ :=
  ((b1.allAuthors ∩ b2.allAuthors).card : ℚ) / ((b1.allAuthors ∪ b2.allAuthors).card : ℚ)

/-- The shared_authors component of the scores map (lines 96-101):
the square root of the author Jaccard index times 0.30, modelled with the
real square root. -/
noncomputable def shared_authors_score (b1 b2 : Catalog) : ℝ :=
  if 0 < b1.allAuthors.card + b2.allAuthors.card then
    Real.sqrt (author_jaccard b1 b2) * 0.30
  else 0

/-- The cross_recommendations component of the scores map (lines 103-109). -/
def cross_recommendations_score (b1 b2 : Catalog) : ℚ :=
  if 0 < b1.finished.card + b2.finished.card then
    min 1 ((((b1.finished ∩ b2.want_to_read).card + (b2.finished ∩ b1.want_to_read).card : ℕ) : ℚ) /
        ((b1.finished.card + b2.finished.card : ℕ) * 0.1)) * 0.10
  else 0

/-- The shared_tbr component of the scores map (lines 111-116). -/
def shared_tbr_score (b1 b2 : Catalog) : ℚ :=
  if 0 < b1.want_to_read.card + b2.want_to_read.card then
    ((b1.want_to_read ∩ b2.want_to_read).card : ℚ) / ((b1.want_to_read ∪ b2.want_to_read).card : ℚ) * 0.20
  else 0

/-- The reading_behavior component of the scores map (lines 118-123). -/
def reading_behavior_score (b1 b2 : Catalog) : ℚ :=
  let p1_finish_rate : ℚ := if 0 < b1.all.card then (b1.finished.card : ℚ) / b1.all.card else 0
  let p2_finish_rate : ℚ := if 0 < b2.all.card then (b2.finished.card : ℚ) / b2.all.card else 0
  let finish_rate_similarity := 1 - |p1_finish_rate - p2_finish_rate|
  let size_ratio : ℚ := if 0 < max b1.all.card b2.all.card then
      (min b1.all.card b2.all.card : ℚ) / (max b1.all.card b2.all.card : ℚ)
    else 0
  (finish_rate_similarity * 0.7 + size_ratio * 0.3) * 0.05

/-- The disagreement_penalty component of the scores map (lines 125-127). -/
def disagreement_penalty_score (b1 b2 : Catalog) : ℚ :=
  -min 0.15 ((disagreements b1 b2 : ℚ) * 0.02)

/-- The sum of the six components (line 129), in insertion order. -/
noncomputable def total_score (b1 b2 : Catalog) : ℝ :=
  (shared_finished_score b1 b2 : ℝ) + shared_authors_score b1 b2 +
    (cross_recommendations_score b1 b2 : ℝ) + (shared_tbr_score b1 b2 : ℝ) +
    (reading_behavior_score b1 b2 : ℝ) + (disagreement_penalty_score b1 b2 : ℝ)

/-- The reported percentage (line 167): the total times 100, rounded to
one decimal place. -/
noncomputable def compatibility_score (b1 b2 : Catalog) : ℝ :=
  ((round (total_score b1 b2 * 100 * 10) : ℤ) : ℝ) / 10

/-! ### DiagnosisGenerator (lines 184-255) -/

/-- The `level` string of lines 188-202. -/
noncomputable def diagnosisLevel (score : ℝ) : String :=
  if 0.70 ≤ score then "EXCELLENT"
  else if 0.50 ≤ score then "GOOD"
  else if 0.30 ≤ score then "MODERATE"
  else if 0.15 ≤ score then "LOW"
  else "MINIMAL"

/-- The `emoji` string of lines 188-202. -/
noncomputable def diagnosisEmoji (score : ℝ) : String :=
  if 0.70 ≤ score then "🌟"
  else if 0.50 ≤ score then "😊"
  else if 0.30 ≤ score then "👍"
  else if 0.15 ≤ score then "🤔"
  else "😅"

/-- Python `f"{x:.1f}"` for the scores that occur here: round to one
decimal and print with exactly one fractional digit. -/
noncomputable def pyFormat1 (x : ℝ) : String :=
  (if round (x * 10) < 0 then "-" else "") ++
    toString ((round (x * 10) : ℤ).natAbs / 10) ++ "." ++
    toString ((round (x * 10) : ℤ).natAbs % 10)

/-- The `diagnosis_parts` list of lines 213-254, in emission order.  Each
conditional clause contributes a singleton or empty sublist. -/
noncomputable def generate_diagnosis_parts (score : ℝ)
    (p1f p2f sharedf sharedA crossR disag : ℕ) : List String :=
  [diagnosisEmoji score ++ " " ++ diagnosisLevel score ++ " COMPATIBILITY (" ++
    pyFormat1 (score * 100) ++ "%)"] ++
  [if 10 < sharedf then "Strong overlap with " ++ toString sharedf ++ " shared books."
   else if 5 < sharedf then "Decent overlap with " ++ toString sharedf ++ " shared books."
   else if 2 < sharedf then "Some overlap with " ++ toString sharedf ++ " shared books."
   else "Limited overlap with only " ++ toString sharedf ++ " shared books."] ++
  (if ¬(((p1f : ℤ) - p2f).natAbs < 20) then
     (if p2f * 2 < p1f then
        ["Large library size difference - first reader is much more prolific."]
      else if p1f * 2 < p2f then
        ["Large library size difference - second reader is much more prolific."]
      else [])
   else []) ++
  (if 20 < crossR then ["Excellent recommendation potential (" ++ toString crossR ++ " books to share)."]
   else if 10 < crossR then ["Good recommendation potential (" ++ toString crossR ++ " books to share)."]
   else if 5 < crossR then ["Some recommendation potential (" ++ toString crossR ++ " books to share)."]
   else []) ++
  (if 5 < disag then ["Notable taste differences (" ++ toString disag ++ " disagreements)."]
   else if 0 < disag then ["Minor taste differences (" ++ toString disag ++ " disagreements)."]
   else []) ++
  (if 5 < sharedA then ["Very strong author overlap (" ++ toString sharedA ++ " shared)."]
   else if 2 < sharedA then ["Good author overlap (" ++ toString sharedA ++ " shared)."]
   else [])

/-- Python `" ".join(parts)` (line 255). -/
def joinParts : List String → String
  | [] => ""
  | [p] => p
  | p :: ps => p ++ " " ++ joinParts ps

/-- Model of `generate_diagnosis` (line 184). -/
noncomputable def generate_diagnosis (score : ℝ)
    (p1f p2f sharedf sharedA crossR disag : ℕ) : String :=
  joinParts (generate_diagnosis_parts score p1f p2f sharedf sharedA crossR disag)

/-- The diagnosis produced for a pair of catalogs, wired as in the call on
lines 150-158. -/
noncomputable def pairDiagnosis (b1 b2 : Catalog) : String :=
  generate_diagnosis (total_score b1 b2) b1.finished.card b2.finished.card
    (b1.finished ∩ b2.finished).card (b1.finishedAuthors ∩ b2.finishedAuthors).card
    ((b1.finished ∩ b2.want_to_read).card + (b2.finished ∩ b1.want_to_read).card)
    (disagreements b1 b2)

/-! ### Substring search (for "the diagnosis contains ..." claims) -/

/-- Does `sub` occur as a contiguous substring of `l`? -/
def hasSubstr (sub : List Char) : List Char → Bool
  | [] => sub.isEmpty
  | c :: cs => sub.isPrefixOf (c :: cs) || hasSubstr sub cs

/-- String-level substring test. -/
def strHasSubstr (s sub : String) : Bool := hasSubstr sub.data s.data

/-! ### BatchRunner results and their sorting (lines 298-311) -/

/-- The fields of a `PairResult` relevant to ranking and reporting.  The
stored score is always a multiple of 0.1 (a rounded percentage), so it is
represented exactly as a rational. -/
structure PairResult where
  person1 : String
  person2 : String
  compatibility_score : ℚ
  diagnosis : String
deriving DecidableEq

/-- Stable descending insertion: the new element goes after every element
whose score is greater than or equal to its own.  This is the unique
stable sort by `compatibility_score` descending, i.e. the behaviour of
`list.sort(key=..., reverse=True)` on line 302. -/
def insertResultDesc (r : PairResult) : List PairResult → List PairResult
  | [] => [r]
  | x :: xs =>
    if r.compatibility_score ≤ x.compatibility_score then x :: insertResultDesc r xs
    else r :: x :: xs

/-- Model of the results sort on line 302 (a stable sort keyed on the
score, descending), processing the computed results in order. -/
def save_results_sort (rs : List PairResult) : List PairResult :=
  rs.foldl (fun acc r => insertResultDesc r acc) []

/-! ### Auxiliary definitions used in claim statements -/

/-- The catalog with every set empty. -/
def emptyCatalog : Catalog := ⟨∅, ∅, ∅, ∅, ∅, ∅⟩

/-- The status values named by the ReadingStatus enumeration of the
spec. -/
def recognizedStatuses : List String :=
  ["finished", "currently_reading", "want_to_read", "did_not_finish", "deleted"]

/-- The title normalisation exactly as the spec sentence describes it:
lower-case, drop every character that is not a letter, a digit, or
whitespace, collapse whitespace runs to single spaces, trim the ends.
(Note: no underscore in the kept set.)  Used to compare the wording of the
spec against `normalize_title`. -/
def normalize_title_specWorded : Option String → String
  | none => ""
  | some s => ⟨joinWords (pyWords ((s.data.map Char.toLower).filter
      (fun c => c.isAlpha || c.isDigit || c.isWhitespace)))⟩

/-- The spec wording amended minimally: the kept set also contains the
underscore (the Python word-character class matches the underscore). -/
def normalize_title_specAmended : Option String → String
  | none => ""
  | some s => ⟨joinWords (pyWords ((s.data.map Char.toLower).filter
      (fun c => c.isAlpha || c.isDigit || c == '_' || c.isWhitespace)))⟩

/-- A catalog of five finished titles (which are also the whole library),
with no authors, no to-read titles and no abandoned titles. -/
def catFive : Catalog :=
  ⟨{"a", "b", "c", "d", "e"}, ∅, ∅, {"a", "b", "c", "d", "e"}, ∅, ∅⟩

/-- Score-descending comparison between two results. -/
def scoreGE (a b : PairResult) : Prop := b.compatibility_score ≤ a.compatibility_score

/-! ## Theorems -/

/-- Mapping after filtering yields a subset of mapping the whole list. -/
theorem toFinset_map_filter_sub {α β : Type} [DecidableEq β] (l : List α) (p : α → Bool) (f : α → β) :
    ((l.filter p).map f).toFinset ⊆ (l.map f).toFinset := by
  intro x hx
  simp only [List.mem_toFinset, List.mem_map] at hx ⊢
  obtain ⟨a, ha, rfl⟩ := hx
  exact ⟨a, List.mem_of_mem_filter ha, rfl⟩

/-- C10: for every pair of input record lists, the finished,
want-to-read, and did-not-finish title sets of each person are subsets of
the `all` title set of that person, and the finished-author set is a
subset of the all-author set. -/
theorem c10_category_containment (rs : List BookRecord) :
    (buildCatalog rs).finished ⊆ (buildCatalog rs).all ∧
    (buildCatalog rs).want_to_read ⊆ (buildCatalog rs).all ∧
    (buildCatalog rs).did_not_finish ⊆ (buildCatalog rs).all ∧
    (buildCatalog rs).finishedAuthors ⊆ (buildCatalog rs).allAuthors := by
  refine ⟨?_, ?_, ?_, ?_⟩
  · exact toFinset_map_filter_sub _ _ _
  · exact toFinset_map_filter_sub _ _ _
  · exact toFinset_map_filter_sub _ _ _
  · exact Finset.erase_subset_erase _ (toFinset_map_filter_sub _ _ _)

/-- C8 counterexample: a record with the unrecognized status `"weird"` and
author `"Bob"` is NOT excluded from the all-author set, contrary to the
claim that such a record is excluded from both author sets. -/
theorem c8_counterexample :
    (buildCatalog [⟨some "t", some "Bob", "weird"⟩]).allAuthors = {"bob"} ∧
    "bob" ∈ (buildCatalog [⟨some "t", some "Bob", "weird"⟩]).allAuthors := by
  constructor
  · decide
  · decide

/-- C8 (amended): a record with an unrecognized status is excluded from the
finished, want-to-read and did-not-finish title sets and from the
finished-author set, its normalized title still enters the `all` set, and
its primary author (when nonempty) enters the all-author set; a record with
status `deleted` changes no set at all.  Category construction is a total
function, so no status value can raise an error. -/
theorem c8_unrecognized_status_tolerated :
    (∀ (r : BookRecord) (rs : List BookRecord), r.status ∉ recognizedStatuses →
      (buildCatalog (r :: rs)).finished = (buildCatalog rs).finished ∧
      (buildCatalog (r :: rs)).want_to_read = (buildCatalog rs).want_to_read ∧
      (buildCatalog (r :: rs)).did_not_finish = (buildCatalog rs).did_not_finish ∧
      (buildCatalog (r :: rs)).finishedAuthors = (buildCatalog rs).finishedAuthors ∧
      normalize_title r.title ∈ (buildCatalog (r :: rs)).all ∧
      (get_primary_author r.author ≠ "" →
        get_primary_author r.author ∈ (buildCatalog (r :: rs)).allAuthors)) ∧
    (∀ (r : BookRecord) (rs : List BookRecord), r.status = "deleted" →
      buildCatalog (r :: rs) = buildCatalog rs) := by
  constructor
  · intro r rs hstat
    simp only [recognizedStatuses, List.mem_cons, List.not_mem_nil, or_false, not_or] at hstat
    obtain ⟨h1, h2, h3, h4, h5⟩ := hstat
    have hfin : isFinishedStatus r.status = false := by
      simp [isFinishedStatus, h1, h2]
    refine ⟨?_, ?_, ?_, ?_, ?_, ?_⟩
    · simp [buildCatalog, List.filter_cons, h5, hfin]
    · simp [buildCatalog, List.filter_cons, h5, h3]
    · simp [buildCatalog, List.filter_cons, h5, h4]
    · simp [buildCatalog, List.filter_cons, h5, hfin]
    · simp [buildCatalog, List.filter_cons, h5]
    · intro hne
      have hne2 : (!(r.status == "deleted")) = true := by simp [h5]
      simp only [buildCatalog, List.filter_cons, hne2, if_true, List.map_cons,
        List.toFinset_cons]
      exact Finset.mem_erase.mpr ⟨hne, Finset.mem_insert_self _ _⟩
  · intro r rs hdel
    simp [buildCatalog, List.filter_cons, hdel]

/-- C8 witness: both parts of the theorem applied at concrete records. -/
theorem c8_unrecognized_status_tolerated_witness :
    ((⟨some "t", some "Bob", "weird"⟩ : BookRecord).status ∉ recognizedStatuses ∧
      normalize_title (some "t") ∈ (buildCatalog [⟨some "t", some "Bob", "weird"⟩]).all) ∧
    ((⟨some "t", some "Bob", "deleted"⟩ : BookRecord).status = "deleted" ∧
      buildCatalog [⟨some "t", some "Bob", "deleted"⟩] = buildCatalog []) :=
  ⟨⟨by decide,
    ((c8_unrecognized_status_tolerated.1 ⟨some "t", some "Bob", "weird"⟩ [] (by decide)).2.2.2.2.1)⟩,
   ⟨rfl, c8_unrecognized_status_tolerated.2 ⟨some "t", some "Bob", "deleted"⟩ [] rfl⟩⟩

/-! ### C9: ranking of the collected results -/

theorem mem_insertResultDesc {y r : PairResult} {l : List PairResult} :
    y ∈ insertResultDesc r l ↔ y = r ∨ y ∈ l := by
  induction l with
  | nil => simp [insertResultDesc]
  | cons x xs ih =>
    by_cases h : r.compatibility_score ≤ x.compatibility_score
    · simp only [insertResultDesc, if_pos h, List.mem_cons, ih]
      tauto
    · simp [insertResultDesc, if_neg h]

theorem sorted_insertResultDesc (r : PairResult) (l : List PairResult)
    (h : l.Sorted scoreGE) : (insertResultDesc r l).Sorted scoreGE := by
  induction l with
  | nil => simp [insertResultDesc, List.Sorted]
  | cons x xs ih =>
    rw [List.sorted_cons] at h
    obtain ⟨hx, hxs⟩ := h
    by_cases hc : r.compatibility_score ≤ x.compatibility_score
    · rw [insertResultDesc, if_pos hc, List.sorted_cons]
      refine ⟨?_, ih hxs⟩
      intro y hy
      rcases mem_insertResultDesc.mp hy with rfl | hy'
      · exact hc
      · exact hx y hy'
    · rw [insertResultDesc, if_neg hc, List.sorted_cons]
      refine ⟨?_, List.sorted_cons.mpr ⟨hx, hxs⟩⟩
      intro y hy
      rcases List.mem_cons.mp hy with rfl | hy'
      · exact le_of_not_le hc
      · exact le_trans (hx y hy') (le_of_not_le hc)

theorem filter_insertResultDesc (q : ℚ) (r : PairResult) (l : List PairResult)
    (h : l.Sorted scoreGE) :
    (insertResultDesc r l).filter (fun x => decide (x.compatibility_score = q)) =
      l.filter (fun x => decide (x.compatibility_score = q)) ++
        (if r.compatibility_score = q then [r] else []) := by
  induction l with
  | nil =>
    by_cases hq : r.compatibility_score = q <;>
      simp [insertResultDesc, List.filter_cons, hq]
  | cons x xs ih =>
    rw [List.sorted_cons] at h
    obtain ⟨hx, hxs⟩ := h
    by_cases hc : r.compatibility_score ≤ x.compatibility_score
    · rw [insertResultDesc, if_pos hc]
      by_cases hxq : x.compatibility_score = q <;>
        simp [List.filter_cons, hxq, ih hxs]
    · rw [insertResultDesc, if_neg hc]
      by_cases hq : r.compatibility_score = q
      · have hxq : ¬x.compatibility_score = q := by
          intro hxq
          exact hc (le_of_eq (hq.trans hxq.symm))
        have hall : xs.filter (fun x => decide (x.compatibility_score = q)) = [] := by
          rw [List.filter_eq_nil_iff]
          intro y hy
          simp only [decide_eq_true_eq]
          intro hyq
          exact hc (le_trans (le_of_eq (hq.trans hyq.symm)) (hx y hy))
        simp [List.filter_cons, hq, hxq, hall]
      · simp [List.filter_cons, hq]

theorem foldl_insertResultDesc_sorted (rs acc : List PairResult)
    (h : acc.Sorted scoreGE) :
    (rs.foldl (fun a r => insertResultDesc r a) acc).Sorted scoreGE := by
  induction rs generalizing acc with
  | nil => exact h
  | cons r rs ih => exact ih _ (sorted_insertResultDesc r acc h)

theorem foldl_insertResultDesc_filter (q : ℚ) (rs acc : List PairResult)
    (h : acc.Sorted scoreGE) :
    (rs.foldl (fun a r => insertResultDesc r a) acc).filter
        (fun x => decide (x.compatibility_score = q)) =
      acc.filter (fun x => decide (x.compatibility_score = q)) ++
        rs.filter (fun x => decide (x.compatibility_score = q)) := by
  induction rs generalizing acc with
  | nil => simp
  | cons r rs ih =>
    rw [List.foldl_cons, ih _ (sorted_insertResultDesc r acc h),
      filter_insertResultDesc q r acc h, List.append_assoc, List.filter_cons]
    by_cases hq : r.compatibility_score = q <;> simp [hq]

/-- C9: the emitted result sequence is sorted by `compatibility_score`
descending, and for every score value the results carrying that score
appear in their original computation order (the sort is stable). -/
theorem c9_results_sorted_descending_stable (rs : List PairResult) :
    (save_results_sort rs).Sorted scoreGE ∧
    ∀ q : ℚ, (save_results_sort rs).filter (fun x => decide (x.compatibility_score = q)) =
      rs.filter (fun x => decide (x.compatibility_score = q)) := by
  constructor
  · exact foldl_insertResultDesc_sorted rs [] (by simp [List.Sorted])
  · intro q
    rw [save_results_sort, foldl_insertResultDesc_filter q rs [] (by simp [List.Sorted])]
    simp

/-! ### C3: what `normalize_title` keeps and drops -/

/-- C3 counterexample: on `"a_b"` the code keeps the underscore (Python
`\w` matches `_`), while the claimed description (keep only letters,
digits, whitespace) would delete it.  So `normalize_title` does not remove
every character that is not a letter, digit, or whitespace. -/
theorem c3_counterexample :
    normalize_title (some "a_b") = "a_b" ∧
    normalize_title_specWorded (some "a_b") = "ab" ∧
    normalize_title (some "a_b") ≠ normalize_title_specWorded (some "a_b") :=
  ⟨by decide, by decide, by decide⟩

/-- C3 (amended): for every input, `normalize_title` lower-cases, removes
every character that is not a letter, a digit, an underscore, or
whitespace, collapses whitespace runs to single spaces and trims the ends;
missing or empty input gives the empty string. -/
theorem c3_normalize_title_description :
    (∀ t : Option String, normalize_title t = normalize_title_specAmended t) ∧
    normalize_title none = "" ∧ normalize_title (some "") = "" := by
  refine ⟨?_, rfl, rfl⟩
  intro t
  cases t with
  | none => rfl
  | some s =>
    simp only [normalize_title, normalize_title_specAmended]
    apply congrArg String.mk
    apply congrArg joinWords
    apply congrArg pyWords
    apply List.filter_congr
    intro c _
    simp [keepChar, pyIsWordChar, Char.isAlphanum, Bool.or_assoc]

/-! ### C7: idempotence of `normalize_title` -/

theorem char_toNat_ofNat_lt {n : ℕ} (h : n < 55296) : (Char.ofNat n).toNat = n := by
  rw [Char.ofNat, dif_pos (Or.inl h)]
  rfl

theorem char_toLower_unfolded (c : Char) :
    c.toLower = if c.toNat ≥ 65 ∧ c.toNat ≤ 90 then Char.ofNat (c.toNat + 32) else c := rfl

theorem char_toLower_eq_self {c : Char} (h : ¬(65 ≤ c.toNat ∧ c.toNat ≤ 90)) :
    c.toLower = c := by
  rw [char_toLower_unfolded, if_neg]
  exact fun hc => h ⟨hc.1, hc.2⟩

theorem char_toLower_idem (c : Char) : c.toLower.toLower = c.toLower := by
  by_cases h : 65 ≤ c.toNat ∧ c.toNat ≤ 90
  · have h1 : c.toLower = Char.ofNat (c.toNat + 32) := by
      rw [char_toLower_unfolded, if_pos]
      exact ⟨h.1, h.2⟩
    have h2 : c.toLower.toNat = c.toNat + 32 := by
      rw [h1, char_toNat_ofNat_lt (by omega)]
    exact char_toLower_eq_self (by rw [h2]; omega)
  · rw [char_toLower_eq_self h, char_toLower_eq_self h]

/-- Every character of every word produced by `pyWordsAux` comes from the
input (or the accumulator) and is not whitespace. -/
theorem pyWordsAux_forall (P : Char → Prop) :
    ∀ (l acc : List Char), (∀ c ∈ l, c.isWhitespace = false → P c) → (∀ c ∈ acc, P c) →
      ∀ w ∈ pyWordsAux l acc, ∀ c ∈ w, P c := by
  intro l
  induction l with
  | nil =>
    intro acc _ hacc w hw c hc
    by_cases he : acc.isEmpty
    · simp [pyWordsAux, he] at hw
    · simp only [pyWordsAux, he, Bool.false_eq_true, if_false, List.mem_singleton] at hw
      subst hw
      exact hacc c (List.mem_reverse.mp hc)
  | cons a t ih =>
    intro acc hl hacc w hw c hc
    by_cases hws : a.isWhitespace
    · by_cases he : acc.isEmpty
      · rw [pyWordsAux, if_pos hws, if_pos he] at hw
        exact ih [] (fun c hc hns => hl c (List.mem_cons_of_mem a hc) hns) (by simp) w hw c hc
      · rw [pyWordsAux, if_pos hws, if_neg he] at hw
        rcases List.mem_cons.mp hw with rfl | hw'
        · exact hacc c (List.mem_reverse.mp hc)
        · exact ih [] (fun c hc hns => hl c (List.mem_cons_of_mem a hc) hns) (by simp) w hw' c hc
    · rw [pyWordsAux, if_neg hws] at hw
      refine ih (a :: acc) (fun c hc hns => hl c (List.mem_cons_of_mem a hc) hns) ?_ w hw c hc
      intro c hc
      rcases List.mem_cons.mp hc with rfl | hc'
      · exact hl _ (List.mem_cons_self _ _) (by simpa using hws)
      · exact hacc c hc'

/-- The splitter `pyWordsAux` never emits an empty word. -/
theorem pyWordsAux_ne_nil :
    ∀ (l acc : List Char), ∀ w ∈ pyWordsAux l acc, w ≠ [] := by
  intro l
  induction l with
  | nil =>
    intro acc w hw
    by_cases he : acc.isEmpty
    · simp [pyWordsAux, he] at hw
    · simp only [pyWordsAux, he, Bool.false_eq_true, if_false, List.mem_singleton] at hw
      subst hw
      simpa [List.isEmpty_iff] using he
  | cons a t ih =>
    intro acc w hw
    by_cases hws : a.isWhitespace
    · by_cases he : acc.isEmpty
      · rw [pyWordsAux, if_pos hws, if_pos he] at hw
        exact ih [] w hw
      · rw [pyWordsAux, if_pos hws, if_neg he] at hw
        rcases List.mem_cons.mp hw with rfl | hw'
        · simpa [List.isEmpty_iff] using he
        · exact ih [] w hw'
    · rw [pyWordsAux, if_neg hws] at hw
      exact ih (a :: acc) w hw

/-- Scanning a whitespace-free block just moves it into the accumulator. -/
theorem pyWordsAux_chunk :
    ∀ (w : List Char), (∀ c ∈ w, c.isWhitespace = false) → ∀ (rest acc : List Char),
      pyWordsAux (w ++ rest) acc = pyWordsAux rest (w.reverse ++ acc) := by
  intro w
  induction w with
  | nil => intro _ rest acc; rfl
  | cons a t ih =>
    intro hw rest acc
    have ha : a.isWhitespace = false := hw a (List.mem_cons_self a t)
    rw [List.cons_append, pyWordsAux, if_neg (by simp [ha])]
    rw [ih (fun c hc => hw c (List.mem_cons_of_mem a hc)) rest (a :: acc)]
    simp [List.append_assoc]

/-- Splitting the single-space join of nonempty whitespace-free words gives
those words back. -/
theorem pyWords_joinWords :
    ∀ ws : List (List Char), (∀ w ∈ ws, w ≠ []) →
      (∀ w ∈ ws, ∀ c ∈ w, c.isWhitespace = false) →
      pyWords (joinWords ws) = ws := by
  intro ws
  induction ws with
  | nil => intro _ _; rfl
  | cons w vs ih =>
    intro hne hns
    have hw : ∀ c ∈ w, c.isWhitespace = false := hns w (List.mem_cons_self w vs)
    have hwne : w ≠ [] := hne w (List.mem_cons_self w vs)
    cases vs with
    | nil =>
      show pyWordsAux (joinWords [w]) [] = [w]
      have : joinWords [w] = w ++ [] := by simp [joinWords]
      rw [this, pyWordsAux_chunk w hw [] []]
      simp [pyWordsAux, List.isEmpty_iff, hwne]
    | cons v vs' =>
      show pyWordsAux (joinWords (w :: v :: vs')) [] = w :: v :: vs'
      have hj : joinWords (w :: v :: vs') = w ++ ' ' :: joinWords (v :: vs') := rfl
      rw [hj, pyWordsAux_chunk w hw (' ' :: joinWords (v :: vs')) []]
      rw [pyWordsAux, if_pos (by decide)]
      rw [if_neg (by simp [List.isEmpty_iff, hwne])]
      have hrec : pyWordsAux (joinWords (v :: vs')) [] = v :: vs' :=
        ih (fun u hu => hne u (List.mem_cons_of_mem w hu))
          (fun u hu => hns u (List.mem_cons_of_mem w hu))
      rw [hrec]
      simp

/-- Characters of a joined word list are the characters of the words or
the separating space. -/
theorem mem_joinWords :
    ∀ (ws : List (List Char)) (c : Char), c ∈ joinWords ws →
      c = ' ' ∨ ∃ w ∈ ws, c ∈ w := by
  intro ws
  induction ws with
  | nil => intro c hc; simp [joinWords] at hc
  | cons w vs ih =>
    intro c hc
    cases vs with
    | nil =>
      right
      exact ⟨w, List.mem_cons_self w [], by simpa [joinWords] using hc⟩
    | cons v vs' =>
      have hj : joinWords (w :: v :: vs') = w ++ ' ' :: joinWords (v :: vs') := rfl
      rw [hj] at hc
      rcases List.mem_append.mp hc with hcw | hcr
      · exact Or.inr ⟨w, List.mem_cons_self w _, hcw⟩
      · rcases List.mem_cons.mp hcr with rfl | hcr'
        · exact Or.inl rfl
        · rcases ih c hcr' with h | ⟨u, hu, hcu⟩
          · exact Or.inl h
          · exact Or.inr ⟨u, List.mem_cons_of_mem w hu, hcu⟩

theorem map_eq_self_of_forall {α : Type} (f : α → α) :
    ∀ l : List α, (∀ c ∈ l, f c = c) → l.map f = l := by
  intro l h
  induction l with
  | nil => rfl
  | cons a t ih =>
    rw [List.map_cons, h a (List.mem_cons_self a t),
      ih (fun c hc => h c (List.mem_cons_of_mem a hc))]

/-- C7: `normalize_title` is idempotent. -/
theorem c7_normalize_title_idempotent (t : Option String) :
    normalize_title (some (normalize_title t)) = normalize_title t := by
  cases t with
  | none => rfl
  | some s =>
    have hLc : ∀ c ∈ (s.data.map Char.toLower).filter keepChar,
        keepChar c = true ∧ c.toLower = c := by
      intro c hc
      refine ⟨List.of_mem_filter hc, ?_⟩
      obtain ⟨d, _, rfl⟩ := List.mem_map.mp (List.mem_of_mem_filter hc)
      exact char_toLower_idem d
    have hword : ∀ w ∈ pyWords ((s.data.map Char.toLower).filter keepChar), ∀ c ∈ w,
        c ∈ (s.data.map Char.toLower).filter keepChar ∧ c.isWhitespace = false := by
      refine pyWordsAux_forall _ _ [] (fun c hc hns => ⟨hc, hns⟩) (by simp)
    have hword_ne := pyWordsAux_ne_nil ((s.data.map Char.toLower).filter keepChar) []
    show (⟨joinWords (pyWords ((((⟨joinWords (pyWords ((s.data.map Char.toLower).filter
        keepChar))⟩ : String).data.map Char.toLower).filter keepChar)))⟩ : String) = _
    apply congrArg String.mk
    have hdata : (⟨joinWords (pyWords ((s.data.map Char.toLower).filter keepChar))⟩ :
        String).data = joinWords (pyWords ((s.data.map Char.toLower).filter keepChar)) := rfl
    rw [hdata]
    have h1 : (joinWords (pyWords ((s.data.map Char.toLower).filter keepChar))).map
        Char.toLower = joinWords (pyWords ((s.data.map Char.toLower).filter keepChar)) := by
      apply map_eq_self_of_forall
      intro c hc
      rcases mem_joinWords _ c hc with rfl | ⟨w, hw, hcw⟩
      · decide
      · exact (hLc c (hword w hw c hcw).1).2
    have h2 : (joinWords (pyWords ((s.data.map Char.toLower).filter keepChar))).filter
        keepChar = joinWords (pyWords ((s.data.map Char.toLower).filter keepChar)) := by
      rw [List.filter_eq_self]
      intro c hc
      rcases mem_joinWords _ c hc with rfl | ⟨w, hw, hcw⟩
      · decide
      · exact (hLc c (hword w hw c hcw).1).1
    rw [h1, h2]
    apply congrArg joinWords
    exact pyWords_joinWords _ hword_ne (fun w hw c hc => (hword w hw c hc).2)

/-! ### Substring lemmas for the diagnosis claims -/

theorem isPrefixOf_append_self : ∀ l t : List Char, l.isPrefixOf (l ++ t) = true := by
  intro l
  induction l with
  | nil => intro t; simp [List.isPrefixOf]
  | cons a as ih => intro t; simp [List.isPrefixOf, ih]

theorem hasSubstr_self_append (sub t : List Char) : hasSubstr sub (sub ++ t) = true := by
  cases sub with
  | nil =>
    cases t with
    | nil => rfl
    | cons c cs => simp [hasSubstr, List.isPrefixOf]
  | cons a as =>
    rw [List.cons_append, hasSubstr, ← List.cons_append, isPrefixOf_append_self]
    simp

theorem hasSubstr_append_right : ∀ (l : List Char) {sub t : List Char},
    hasSubstr sub t = true → hasSubstr sub (l ++ t) = true := by
  intro l
  induction l with
  | nil => intro sub t h; exact h
  | cons c cs ih =>
    intro sub t h
    rw [List.cons_append, hasSubstr, ih h]
    simp

/-- A part of a space-joined list occurs in the joined string. -/
theorem joinParts_hasSubstr : ∀ (ps : List String) (p : String), p ∈ ps →
    strHasSubstr (joinParts ps) p = true := by
  intro ps
  induction ps with
  | nil => intro p hp; cases hp
  | cons q qs ih =>
    intro p hp
    cases qs with
    | nil =>
      have hp' : p = q := by simpa using hp
      subst hp'
      have h := hasSubstr_self_append p.data []
      rw [List.append_nil] at h
      exact h
    | cons r rs =>
      have hj : joinParts (q :: r :: rs) = q ++ " " ++ joinParts (r :: rs) := rfl
      rcases List.mem_cons.mp hp with rfl | hp'
      · rw [strHasSubstr, hj]
        simp only [String.data_append, List.append_assoc]
        exact hasSubstr_self_append p.data _
      · rw [strHasSubstr, hj]
        simp only [String.data_append, List.append_assoc]
        rw [← List.append_assoc]
        exact hasSubstr_append_right _ (ih p hp')

/-! ### C6: the disagreement penalty and its diagnosis clause -/

/-- C6: the `disagreement_penalty` component equals
`-min(0.15, disagreements * 0.02)` with
`disagreements = |finished1 ∩ dnf2| + |finished2 ∩ dnf1|`; with 8
disagreements the penalty caps at `-0.15` and the diagnosis contains
"Notable taste differences (8 disagreements)." as a substring. -/
theorem c6_disagreement_penalty_capped (b1 b2 : Catalog) :
    disagreement_penalty_score b1 b2 =
      -min 0.15 ((((b1.finished ∩ b2.did_not_finish).card : ℚ) +
        ((b2.finished ∩ b1.did_not_finish).card : ℚ)) * 0.02) ∧
    (disagreements b1 b2 = 8 →
      disagreement_penalty_score b1 b2 = -0.15 ∧
      strHasSubstr (pairDiagnosis b1 b2) "Notable taste differences (8 disagreements)." = true) := by
  constructor
  · rw [disagreement_penalty_score, disagreements]
    push_cast
    rfl
  · intro h8
    constructor
    · rw [disagreement_penalty_score, h8]
      norm_num
    · rw [pairDiagnosis, generate_diagnosis, h8]
      apply joinParts_hasSubstr
      rw [generate_diagnosis_parts]
      refine List.mem_append.mpr (Or.inl ?_)
      refine List.mem_append.mpr (Or.inr ?_)
      rw [if_pos (by norm_num)]
      exact List.mem_singleton.mpr (by decide)

/-- C6 witness: concrete catalogs with exactly 8 disagreements. -/
theorem c6_disagreement_penalty_capped_witness :
    disagreements ⟨{"a", "b", "c", "d", "e", "f", "g", "h"}, ∅, ∅, ∅, ∅, ∅⟩
        ⟨∅, ∅, {"a", "b", "c", "d", "e", "f", "g", "h"}, ∅, ∅, ∅⟩ = 8 ∧
      disagreement_penalty_score ⟨{"a", "b", "c", "d", "e", "f", "g", "h"}, ∅, ∅, ∅, ∅, ∅⟩
        ⟨∅, ∅, {"a", "b", "c", "d", "e", "f", "g", "h"}, ∅, ∅, ∅⟩ = -0.15 :=
  ⟨by decide,
   ((c6_disagreement_penalty_capped _ _).2 (by decide)).1⟩

/-! ### C5: symmetry of the score under argument swap -/

theorem shared_finished_score_comm (b1 b2 : Catalog) :
    shared_finished_score b1 b2 = shared_finished_score b2 b1 := by
  simp only [shared_finished_score]
  rw [Finset.inter_comm, min_comm b1.finished.card b2.finished.card,
    min_comm (b1.finished.card : ℚ) (b2.finished.card : ℚ),
    add_comm b1.finished.card b2.finished.card]

theorem shared_authors_score_comm (b1 b2 : Catalog) :
    shared_authors_score b1 b2 = shared_authors_score b2 b1 := by
  simp only [shared_authors_score, author_jaccard]
  rw [Finset.inter_comm, Finset.union_comm, add_comm b1.allAuthors.card b2.allAuthors.card]

theorem cross_recommendations_score_comm (b1 b2 : Catalog) :
    cross_recommendations_score b1 b2 = cross_recommendations_score b2 b1 := by
  simp only [cross_recommendations_score]
  rw [add_comm (b1.finished ∩ b2.want_to_read).card (b2.finished ∩ b1.want_to_read).card,
    add_comm b1.finished.card b2.finished.card]

theorem shared_tbr_score_comm (b1 b2 : Catalog) :
    shared_tbr_score b1 b2 = shared_tbr_score b2 b1 := by
  simp only [shared_tbr_score]
  rw [Finset.inter_comm, Finset.union_comm,
    add_comm b1.want_to_read.card b2.want_to_read.card]

theorem reading_behavior_score_comm (b1 b2 : Catalog) :
    reading_behavior_score b1 b2 = reading_behavior_score b2 b1 := by
  simp only [reading_behavior_score]
  rw [abs_sub_comm, max_comm b1.all.card b2.all.card,
    min_comm (b1.all.card : ℚ) (b2.all.card : ℚ), max_comm (b1.all.card : ℚ) (b2.all.card : ℚ)]

theorem disagreement_penalty_score_comm (b1 b2 : Catalog) :
    disagreement_penalty_score b1 b2 = disagreement_penalty_score b2 b1 := by
  simp only [disagreement_penalty_score, disagreements]
  rw [add_comm (b1.finished ∩ b2.did_not_finish).card (b2.finished ∩ b1.did_not_finish).card]

/-- C5: swapping the two catalogs leaves every component, the total and the
reported percentage unchanged; in particular the two directed sums
(`cross_recommendations` and `disagreement_penalty`) are
direction-independent. -/
theorem c5_score_symmetric (b1 b2 : Catalog) :
    shared_finished_score b1 b2 = shared_finished_score b2 b1 ∧
    shared_authors_score b1 b2 = shared_authors_score b2 b1 ∧
    cross_recommendations_score b1 b2 = cross_recommendations_score b2 b1 ∧
    shared_tbr_score b1 b2 = shared_tbr_score b2 b1 ∧
    reading_behavior_score b1 b2 = reading_behavior_score b2 b1 ∧
    disagreement_penalty_score b1 b2 = disagreement_penalty_score b2 b1 ∧
    total_score b1 b2 = total_score b2 b1 ∧
    compatibility_score b1 b2 = compatibility_score b2 b1 := by
  have ht : total_score b1 b2 = total_score b2 b1 := by
    rw [total_score, total_score, shared_finished_score_comm, shared_authors_score_comm,
      cross_recommendations_score_comm, shared_tbr_score_comm, reading_behavior_score_comm,
      disagreement_penalty_score_comm]
  exact ⟨shared_finished_score_comm b1 b2, shared_authors_score_comm b1 b2,
    cross_recommendations_score_comm b1 b2, shared_tbr_score_comm b1 b2,
    reading_behavior_score_comm b1 b2, disagreement_penalty_score_comm b1 b2, ht,
    by rw [compatibility_score, compatibility_score, ht]⟩

/-! ### C4: bounds on every component, the total and the percentage -/

theorem min_one_mul_bounds {x w : ℚ} (hx : 0 ≤ x) (hw : 0 ≤ w) :
    0 ≤ min 1 x * w ∧ min 1 x * w ≤ w := by
  constructor
  · exact mul_nonneg (le_min (by norm_num) hx) hw
  · calc min 1 x * w ≤ 1 * w := mul_le_mul_of_nonneg_right (min_le_left _ _) hw
      _ = w := one_mul w

theorem jaccard_bounds (s t : Finset String) :
    0 ≤ ((s ∩ t).card : ℚ) / ((s ∪ t).card : ℚ) ∧
      ((s ∩ t).card : ℚ) / ((s ∪ t).card : ℚ) ≤ 1 := by
  constructor
  · exact div_nonneg (Nat.cast_nonneg _) (Nat.cast_nonneg _)
  · rcases Nat.eq_zero_or_pos (s ∪ t).card with h | h
    · rw [h]
      norm_num
    · rw [div_le_one (by exact_mod_cast h)]
      exact_mod_cast Finset.card_le_card Finset.inter_subset_union

theorem shared_finished_score_bounds (b1 b2 : Catalog) :
    0 ≤ shared_finished_score b1 b2 ∧ shared_finished_score b1 b2 ≤ 0.35 := by
  simp only [shared_finished_score]
  split_ifs with h1 h2
  · exact min_one_mul_bounds
      (div_nonneg (Nat.cast_nonneg _) (le_min (Nat.cast_nonneg _) (Nat.cast_nonneg _)))
      (by norm_num)
  · exact min_one_mul_bounds le_rfl (by norm_num)
  · norm_num

theorem shared_authors_score_bounds (b1 b2 : Catalog) :
    0 ≤ shared_authors_score b1 b2 ∧ shared_authors_score b1 b2 ≤ 0.30 := by
  simp only [shared_authors_score]
  split_ifs with h
  · constructor
    · exact mul_nonneg (Real.sqrt_nonneg _) (by norm_num)
    · have hj : ((author_jaccard b1 b2 : ℚ) : ℝ) ≤ 1 := by
        rw [author_jaccard]
        exact_mod_cast (jaccard_bounds b1.allAuthors b2.allAuthors).2
      calc Real.sqrt (author_jaccard b1 b2) * 0.30 ≤ 1 * 0.30 :=
            mul_le_mul_of_nonneg_right (Real.sqrt_le_one.mpr hj) (by norm_num)
        _ = 0.30 := one_mul _
  · norm_num

theorem cross_recommendations_score_bounds (b1 b2 : Catalog) :
    0 ≤ cross_recommendations_score b1 b2 ∧ cross_recommendations_score b1 b2 ≤ 0.10 := by
  simp only [cross_recommendations_score]
  split_ifs with h
  · exact min_one_mul_bounds
      (div_nonneg (Nat.cast_nonneg _) (mul_nonneg (Nat.cast_nonneg _) (by norm_num)))
      (by norm_num)
  · norm_num

theorem shared_tbr_score_bounds (b1 b2 : Catalog) :
    0 ≤ shared_tbr_score b1 b2 ∧ shared_tbr_score b1 b2 ≤ 0.20 := by
  simp only [shared_tbr_score]
  split_ifs with h
  · have hj := jaccard_bounds b1.want_to_read b2.want_to_read
    constructor
    · exact mul_nonneg hj.1 (by norm_num)
    · calc ((b1.want_to_read ∩ b2.want_to_read).card : ℚ) /
            ((b1.want_to_read ∪ b2.want_to_read).card : ℚ) * 0.20 ≤ 1 * 0.20 :=
            mul_le_mul_of_nonneg_right hj.2 (by norm_num)
        _ = 0.20 := one_mul _
  · norm_num

theorem reading_behavior_score_bounds (b1 b2 : Catalog)
    (h1 : b1.finished ⊆ b1.all) (h2 : b2.finished ⊆ b2.all) :
    0 ≤ reading_behavior_score b1 b2 ∧ reading_behavior_score b1 b2 ≤ 0.05 := by
  have rate_bounds : ∀ b : Catalog, b.finished ⊆ b.all →
      0 ≤ (if 0 < b.all.card then (b.finished.card : ℚ) / b.all.card else 0) ∧
      (if 0 < b.all.card then (b.finished.card : ℚ) / b.all.card else 0) ≤ 1 := by
    intro b hb
    split_ifs with h
    · constructor
      · exact div_nonneg (Nat.cast_nonneg _) (Nat.cast_nonneg _)
      · rw [div_le_one (by exact_mod_cast h)]
        exact_mod_cast Finset.card_le_card hb
    · norm_num
  obtain ⟨hr1l, hr1u⟩ := rate_bounds b1 h1
  obtain ⟨hr2l, hr2u⟩ := rate_bounds b2 h2
  have hratio : 0 ≤ (if 0 < max b1.all.card b2.all.card then
      (min b1.all.card b2.all.card : ℚ) / (max b1.all.card b2.all.card : ℚ) else 0) ∧
      (if 0 < max b1.all.card b2.all.card then
      (min b1.all.card b2.all.card : ℚ) / (max b1.all.card b2.all.card : ℚ) else 0) ≤ 1 := by
    split_ifs with h
    · constructor
      · exact div_nonneg (le_min (Nat.cast_nonneg _) (Nat.cast_nonneg _))
          (le_max_of_le_left (Nat.cast_nonneg _))
      · rw [div_le_one]
        · exact min_le_max
        · have : (0:ℚ) < (max b1.all.card b2.all.card : ℕ) := by exact_mod_cast h
          calc (0:ℚ) < ((max b1.all.card b2.all.card : ℕ) : ℚ) := this
            _ ≤ max (b1.all.card : ℚ) (b2.all.card : ℚ) := by
                rcases max_choice b1.all.card b2.all.card with hm | hm <;>
                  rw [hm] <;> simp [le_max_left, le_max_right]
    · norm_num
  obtain ⟨hql, hqu⟩ := hratio
  have habs1 : |(if 0 < b1.all.card then (b1.finished.card : ℚ) / b1.all.card else 0) -
      (if 0 < b2.all.card then (b2.finished.card : ℚ) / b2.all.card else 0)| ≤ 1 := by
    rw [abs_le]
    constructor <;> linarith
  have habs0 : 0 ≤ |(if 0 < b1.all.card then (b1.finished.card : ℚ) / b1.all.card else 0) -
      (if 0 < b2.all.card then (b2.finished.card : ℚ) / b2.all.card else 0)| := abs_nonneg _
  simp only [reading_behavior_score]
  constructor <;> linarith

theorem disagreement_penalty_score_bounds (b1 b2 : Catalog) :
    -0.15 ≤ disagreement_penalty_score b1 b2 ∧ disagreement_penalty_score b1 b2 ≤ 0 := by
  simp only [disagreement_penalty_score]
  constructor
  · simp only [neg_le_neg_iff]
    exact min_le_left _ _
  · simp only [neg_nonpos]
    exact le_min (by norm_num) (mul_nonneg (Nat.cast_nonneg _) (by norm_num))

/-- C4: for catalogs built from any two record lists, each pre-weighted
component lies in its stated interval, the total lies in `[-0.15, 1.0]`,
and the reported percentage lies in `[-15.0, 100.0]`. -/
theorem c4_component_and_total_bounds (rs1 rs2 : List BookRecord) :
    (0 ≤ shared_authors_score (buildCatalog rs1) (buildCatalog rs2) ∧
      shared_authors_score (buildCatalog rs1) (buildCatalog rs2) ≤ 0.30) ∧
    (0 ≤ shared_tbr_score (buildCatalog rs1) (buildCatalog rs2) ∧
      shared_tbr_score (buildCatalog rs1) (buildCatalog rs2) ≤ 0.20) ∧
    (0 ≤ shared_finished_score (buildCatalog rs1) (buildCatalog rs2) ∧
      shared_finished_score (buildCatalog rs1) (buildCatalog rs2) ≤ 0.35) ∧
    (0 ≤ cross_recommendations_score (buildCatalog rs1) (buildCatalog rs2) ∧
      cross_recommendations_score (buildCatalog rs1) (buildCatalog rs2) ≤ 0.10) ∧
    (0 ≤ reading_behavior_score (buildCatalog rs1) (buildCatalog rs2) ∧
      reading_behavior_score (buildCatalog rs1) (buildCatalog rs2) ≤ 0.05) ∧
    (-0.15 ≤ disagreement_penalty_score (buildCatalog rs1) (buildCatalog rs2) ∧
      disagreement_penalty_score (buildCatalog rs1) (buildCatalog rs2) ≤ 0) ∧
    (-0.15 ≤ total_score (buildCatalog rs1) (buildCatalog rs2) ∧
      total_score (buildCatalog rs1) (buildCatalog rs2) ≤ 1) ∧
    (-15 ≤ compatibility_score (buildCatalog rs1) (buildCatalog rs2) ∧
      compatibility_score (buildCatalog rs1) (buildCatalog rs2) ≤ 100) := by
  have hsf := shared_finished_score_bounds (buildCatalog rs1) (buildCatalog rs2)
  have hsa := shared_authors_score_bounds (buildCatalog rs1) (buildCatalog rs2)
  have hcr := cross_recommendations_score_bounds (buildCatalog rs1) (buildCatalog rs2)
  have htbr := shared_tbr_score_bounds (buildCatalog rs1) (buildCatalog rs2)
  have hrb := reading_behavior_score_bounds (buildCatalog rs1) (buildCatalog rs2)
    (c10_category_containment rs1).1 (c10_category_containment rs2).1
  have hdp := disagreement_penalty_score_bounds (buildCatalog rs1) (buildCatalog rs2)
  have hsf1 := (Rat.cast_le (K := ℝ)).mpr hsf.1
  have hsf2 := (Rat.cast_le (K := ℝ)).mpr hsf.2
  have hcr1 := (Rat.cast_le (K := ℝ)).mpr hcr.1
  have hcr2 := (Rat.cast_le (K := ℝ)).mpr hcr.2
  have htbr1 := (Rat.cast_le (K := ℝ)).mpr htbr.1
  have htbr2 := (Rat.cast_le (K := ℝ)).mpr htbr.2
  have hrb1 := (Rat.cast_le (K := ℝ)).mpr hrb.1
  have hrb2 := (Rat.cast_le (K := ℝ)).mpr hrb.2
  have hdp1 := (Rat.cast_le (K := ℝ)).mpr hdp.1
  have hdp2 := (Rat.cast_le (K := ℝ)).mpr hdp.2
  push_cast at hsf1 hsf2 hcr1 hcr2 htbr1 htbr2 hrb1 hrb2 hdp1 hdp2
  have htot : (-0.15:ℝ) ≤ total_score (buildCatalog rs1) (buildCatalog rs2) ∧
      total_score (buildCatalog rs1) (buildCatalog rs2) ≤ 1 := by
    rw [total_score]
    constructor <;>
      [linarith [hsf1, hsa.1, hcr1, htbr1, hrb1, hdp1];
       linarith [hsf2, hsa.2, hcr2, htbr2, hrb2, hdp2]]
  have hpct : (-15:ℝ) ≤ compatibility_score (buildCatalog rs1) (buildCatalog rs2) ∧
      compatibility_score (buildCatalog rs1) (buildCatalog rs2) ≤ 100 := by
    rw [compatibility_score]
    have hlo : (-150:ℤ) ≤ round (total_score (buildCatalog rs1) (buildCatalog rs2) * 100 * 10) := by
      have h1 : (-149.5:ℝ) ≤ total_score (buildCatalog rs1) (buildCatalog rs2) * 100 * 10 + 1/2 := by
        nlinarith [htot.1]
      have h2 : (-150:ℤ) = ⌊(-149.5:ℝ)⌋ := by norm_num [Int.floor_eq_iff]
      rw [round_eq, h2]
      exact Int.floor_le_floor h1
    have hhi : round (total_score (buildCatalog rs1) (buildCatalog rs2) * 100 * 10) ≤ 1000 := by
      have h1 : total_score (buildCatalog rs1) (buildCatalog rs2) * 100 * 10 + 1/2 ≤ (1000.5:ℝ) := by
        nlinarith [htot.2]
      have h2 : (1000:ℤ) = ⌊(1000.5:ℝ)⌋ := by norm_num [Int.floor_eq_iff]
      rw [round_eq, h2]
      exact Int.floor_le_floor h1
    constructor
    · have hloR : (-150:ℝ) ≤ ((round (total_score (buildCatalog rs1) (buildCatalog rs2) * 100 * 10) : ℤ) : ℝ) := by
        exact_mod_cast hlo
      linarith
    · have hhiR : ((round (total_score (buildCatalog rs1) (buildCatalog rs2) * 100 * 10) : ℤ) : ℝ) ≤ 1000 := by
        exact_mod_cast hhi
      linarith
  exact ⟨hsa, htbr, hsf, hcr, hrb, hdp, htot, hpct⟩

/-! ### C1: two entirely empty catalogs -/

/-- If the `all` set is empty, no record survived the deleted-filter, so
every derived set is empty. -/
theorem buildCatalog_of_all_empty (rs : List BookRecord)
    (h : (buildCatalog rs).all = ∅) : buildCatalog rs = emptyCatalog := by
  have hdf : rs.filter (fun r => !(r.status == "deleted")) = [] := by
    simp only [buildCatalog] at h
    rwa [List.toFinset_eq_empty_iff, List.map_eq_nil_iff] at h
  simp [buildCatalog, emptyCatalog, hdf]

theorem shared_finished_score_emptyCatalog :
    shared_finished_score emptyCatalog emptyCatalog = 0 := by
  simp [shared_finished_score, emptyCatalog]

theorem shared_authors_score_emptyCatalog :
    shared_authors_score emptyCatalog emptyCatalog = 0 := by
  simp [shared_authors_score, emptyCatalog]

theorem cross_recommendations_score_emptyCatalog :
    cross_recommendations_score emptyCatalog emptyCatalog = 0 := by
  simp [cross_recommendations_score, emptyCatalog]

theorem shared_tbr_score_emptyCatalog :
    shared_tbr_score emptyCatalog emptyCatalog = 0 := by
  simp [shared_tbr_score, emptyCatalog]

theorem reading_behavior_score_emptyCatalog :
    reading_behavior_score emptyCatalog emptyCatalog = 7/200 := by
  simp only [reading_behavior_score, emptyCatalog, Finset.card_empty]
  norm_num

theorem disagreement_penalty_score_emptyCatalog :
    disagreement_penalty_score emptyCatalog emptyCatalog = 0 := by
  simp only [disagreement_penalty_score, disagreements, emptyCatalog, Finset.empty_inter,
    Finset.card_empty]
  norm_num

theorem total_score_emptyCatalog :
    total_score emptyCatalog emptyCatalog = 7/200 := by
  rw [total_score, shared_finished_score_emptyCatalog, shared_authors_score_emptyCatalog,
    cross_recommendations_score_emptyCatalog, shared_tbr_score_emptyCatalog,
    reading_behavior_score_emptyCatalog, disagreement_penalty_score_emptyCatalog]
  push_cast
  norm_num

theorem compatibility_score_emptyCatalog :
    compatibility_score emptyCatalog emptyCatalog = 3.5 := by
  rw [compatibility_score, total_score_emptyCatalog]
  rw [show (7:ℝ)/200 * 100 * 10 = ((35:ℤ):ℝ) by norm_num, round_intCast]
  norm_num

/-- C1 counterexample: for two empty record lists (whose `all` sets are
empty) the `reading_behavior` component is `0.035`, not `0` — the finish
rates agree at `0`, so the rate-similarity term contributes `0.7 * 0.05` —
and the reported total is `3.5%`, not `0.0%`. -/
theorem c1_counterexample :
    (buildCatalog ([] : List BookRecord)).all = ∅ ∧
    reading_behavior_score (buildCatalog []) (buildCatalog []) = 7/200 ∧
    reading_behavior_score (buildCatalog []) (buildCatalog []) ≠ 0 ∧
    compatibility_score (buildCatalog []) (buildCatalog []) = 3.5 ∧
    (3.5:ℝ) ≠ 0 := by
  have hb : buildCatalog ([] : List BookRecord) = emptyCatalog := by decide
  rw [hb]
  exact ⟨by decide, reading_behavior_score_emptyCatalog,
    by rw [reading_behavior_score_emptyCatalog]; norm_num,
    compatibility_score_emptyCatalog, by norm_num⟩

/-- C1 (amended): when both `all` sets are empty, five of the six
components are `0`, but `reading_behavior` is `0.035` (both finish rates
are `0`, so the rate-similarity term remains), the total is `3.5%` after
rounding, the level is MINIMAL, and the diagnosis contains the clause
"Limited overlap with only 0 shared books.". -/
theorem c1_empty_catalogs (rs1 rs2 : List BookRecord)
    (h1 : (buildCatalog rs1).all = ∅) (h2 : (buildCatalog rs2).all = ∅) :
    shared_finished_score (buildCatalog rs1) (buildCatalog rs2) = 0 ∧
    shared_authors_score (buildCatalog rs1) (buildCatalog rs2) = 0 ∧
    cross_recommendations_score (buildCatalog rs1) (buildCatalog rs2) = 0 ∧
    shared_tbr_score (buildCatalog rs1) (buildCatalog rs2) = 0 ∧
    disagreement_penalty_score (buildCatalog rs1) (buildCatalog rs2) = 0 ∧
    reading_behavior_score (buildCatalog rs1) (buildCatalog rs2) = 7/200 ∧
    total_score (buildCatalog rs1) (buildCatalog rs2) = 7/200 ∧
    compatibility_score (buildCatalog rs1) (buildCatalog rs2) = 3.5 ∧
    diagnosisLevel (total_score (buildCatalog rs1) (buildCatalog rs2)) = "MINIMAL" ∧
    strHasSubstr (pairDiagnosis (buildCatalog rs1) (buildCatalog rs2))
      "Limited overlap with only 0 shared books." = true := by
  rw [buildCatalog_of_all_empty rs1 h1, buildCatalog_of_all_empty rs2 h2]
  refine ⟨shared_finished_score_emptyCatalog, shared_authors_score_emptyCatalog,
    cross_recommendations_score_emptyCatalog, shared_tbr_score_emptyCatalog,
    disagreement_penalty_score_emptyCatalog, reading_behavior_score_emptyCatalog,
    total_score_emptyCatalog, compatibility_score_emptyCatalog, ?_, ?_⟩
  · rw [total_score_emptyCatalog, diagnosisLevel]
    rw [if_neg (by norm_num), if_neg (by norm_num), if_neg (by norm_num), if_neg (by norm_num)]
  · rw [pairDiagnosis, generate_diagnosis]
    apply joinParts_hasSubstr
    rw [generate_diagnosis_parts]
    refine List.mem_append.mpr (Or.inl ?_)
    refine List.mem_append.mpr (Or.inl ?_)
    refine List.mem_append.mpr (Or.inl ?_)
    refine List.mem_append.mpr (Or.inl ?_)
    refine List.mem_append.mpr (Or.inr ?_)
    rw [show (emptyCatalog.finished ∩ emptyCatalog.finished).card = 0 from by decide]
    rw [if_neg (by norm_num), if_neg (by norm_num), if_neg (by norm_num)]
    exact List.mem_singleton.mpr (by decide)

/-- C1 witness: the theorem applied to two empty record lists. -/
theorem c1_empty_catalogs_witness :
    (buildCatalog ([] : List BookRecord)).all = ∅ ∧
    diagnosisLevel (total_score (buildCatalog ([] : List BookRecord))
      (buildCatalog ([] : List BookRecord))) = "MINIMAL" :=
  ⟨by decide, (c1_empty_catalogs [] [] (by decide) (by decide)).2.2.2.2.2.2.2.2.1⟩

/-! ### C2: identical finished sets of size five, nothing else -/

/-- C2 (amended): for two catalogs with identical non-empty finished sets
of size 5 that are also their whole libraries, with no authors, no to-read
and no abandoned titles, `shared_finished` contributes exactly `0.35`, but
`reading_behavior` adds `0.05` (identical finish rates and sizes), so the
total is `40.0%`, still level MODERATE. -/
theorem c2_identical_finished_sets (b1 b2 : Catalog)
    (hf : b1.finished = b2.finished) (hcard : b1.finished.card = 5)
    (hall1 : b1.all = b1.finished) (hall2 : b2.all = b2.finished)
    (hau1 : b1.allAuthors = ∅) (hau2 : b2.allAuthors = ∅)
    (hw1 : b1.want_to_read = ∅) (hw2 : b2.want_to_read = ∅)
    (hd1 : b1.did_not_finish = ∅) (hd2 : b2.did_not_finish = ∅) :
    shared_finished_score b1 b2 = 0.35 ∧
    reading_behavior_score b1 b2 = 0.05 ∧
    total_score b1 b2 = 0.40 ∧
    compatibility_score b1 b2 = 40 ∧
    diagnosisLevel (total_score b1 b2) = "MODERATE" := by
  have hc2 : b2.finished.card = 5 := by rw [← hf]; exact hcard
  have hsf : shared_finished_score b1 b2 = 0.35 := by
    simp only [shared_finished_score, hf, Finset.inter_self, hc2]
    norm_num
  have hsa : shared_authors_score b1 b2 = 0 := by
    simp [shared_authors_score, hau1, hau2]
  have hcr : cross_recommendations_score b1 b2 = 0 := by
    simp only [cross_recommendations_score, hf, hw1, hw2, Finset.inter_empty,
      Finset.card_empty, hc2]
    norm_num
  have htbr : shared_tbr_score b1 b2 = 0 := by
    simp [shared_tbr_score, hw1, hw2]
  have hrb : reading_behavior_score b1 b2 = 0.05 := by
    simp only [reading_behavior_score, hall1, hall2, hf, hc2]
    norm_num
  have hdp : disagreement_penalty_score b1 b2 = 0 := by
    simp only [disagreement_penalty_score, disagreements, hd1, hd2, Finset.inter_empty,
      Finset.card_empty]
    norm_num
  have htot : total_score b1 b2 = 0.40 := by
    rw [total_score, hsf, hsa, hcr, htbr, hrb, hdp]
    push_cast
    norm_num
  refine ⟨hsf, hrb, htot, ?_, ?_⟩
  · rw [compatibility_score, htot]
    rw [show (0.40:ℝ) * 100 * 10 = ((400:ℤ):ℝ) by norm_num, round_intCast]
    norm_num
  · rw [htot, diagnosisLevel]
    rw [if_neg (by norm_num), if_neg (by norm_num), if_pos (by norm_num)]

/-- C2 counterexample: the concrete five-book scenario catalog gives a
total of `40.0%`, not the claimed `35.0%` (the `reading_behavior`
component adds `0.05`). -/
theorem c2_counterexample :
    catFive.finished.card = 5 ∧ catFive.all = catFive.finished ∧
    catFive.allAuthors = ∅ ∧ catFive.want_to_read = ∅ ∧ catFive.did_not_finish = ∅ ∧
    shared_finished_score catFive catFive = 0.35 ∧
    compatibility_score catFive catFive = 40 ∧ (40:ℝ) ≠ 35 := by
  have h5 : catFive.finished.card = 5 := by decide
  have hwant : catFive.want_to_read = ∅ := rfl
  have hdnf : catFive.did_not_finish = ∅ := rfl
  have hall : catFive.all = catFive.finished := rfl
  have hsa : shared_authors_score catFive catFive = 0 := by
    simp [shared_authors_score, catFive]
  have hsf : shared_finished_score catFive catFive = 0.35 := by
    simp only [shared_finished_score, Finset.inter_self, h5, min_self]
    norm_num
  have hcr : cross_recommendations_score catFive catFive = 0 := by
    simp only [cross_recommendations_score, hwant, Finset.inter_empty, Finset.card_empty, h5]
    norm_num
  have htbr : shared_tbr_score catFive catFive = 0 := by
    simp [shared_tbr_score, hwant]
  have hrb : reading_behavior_score catFive catFive = 0.05 := by
    simp only [reading_behavior_score, hall, h5, min_self, max_self]
    norm_num
  have hdp : disagreement_penalty_score catFive catFive = 0 := by
    simp only [disagreement_penalty_score, disagreements, hdnf, Finset.inter_empty,
      Finset.card_empty]
    norm_num
  have htot : total_score catFive catFive = 0.40 := by
    rw [total_score, hsa, hsf, hcr, htbr, hrb, hdp]
    push_cast
    norm_num
  refine ⟨h5, hall, rfl, hwant, hdnf, hsf, ?_, by norm_num⟩
  rw [compatibility_score, htot]
  rw [show (0.40:ℝ) * 100 * 10 = ((400:ℤ):ℝ) by norm_num, round_intCast]
  norm_num

/-- C2 witness: the theorem applied to the concrete five-book catalog. -/
theorem c2_identical_finished_sets_witness :
    catFive.finished.card = 5 ∧
    diagnosisLevel (total_score catFive catFive) = "MODERATE" :=
  ⟨by decide, (c2_identical_finished_sets catFive catFive rfl (by decide) rfl rfl rfl rfl
    rfl rfl rfl rfl).2.2.2.2⟩

end BookBonds
